import Mathlib

/-!
# Verification of the synchronized-lyrics-player core (`src/main.js`)

Shallow embedding of the LRC parser, the cue tracker, and the playback /
synchronization state handling of `main.js`. JavaScript numbers are modelled
as exact rationals (`ℚ`); strings as Lean `String` / `List Char`.
-/

namespace LyricDisplay

/-- JS `\d` character class (ASCII digits), as used by the timed-cue regex. -/
def isDig (c : Char) : Bool := '0' ≤ c && c ≤ '9'

/-- JS `\w` character class `[A-Za-z0-9_]`, as used by the metadata regex. -/
def isWordChar (c : Char) : Bool :=
  ('a' ≤ c && c ≤ 'z') || ('A' ≤ c && c ≤ 'Z') || isDig c || c = '_'

/-- JS `String.prototype.trim` whitespace (the white-space and line-terminator
characters relevant to ASCII LRC input). -/
def isJsWs (c : Char) : Bool :=
  c = ' ' || c = '\t' || c = '\n' || c = '\r' || c = '\x0b' || c = '\x0c'

/-- JS `String.prototype.trim`: strip leading and trailing whitespace. -/
def jsTrim (l : List Char) : List Char :=
  ((l.dropWhile isJsWs).reverse.dropWhile isJsWs).reverse

/-- Decimal value of a digit string, as `parseInt` computes it on an
all-digit string. -/
def digitsToNat (l : List Char) : ℕ :=
  l.foldl (fun n c => 10 * n + (c.toNat - 48)) 0

/-- JS `str.padEnd(3, '0')`: right-pad with `'0'` up to length 3. -/
def padEnd3 (l : List Char) : List Char :=
  l ++ List.replicate (3 - l.length) '0'

/-- Result of matching `/\[(\d{2}):(\d{2})\.(\d{2,3})\](.*)/` at one position:
the two minute digits and two second digits (as values), the captured fraction
digits, and the `(.*)` capture (rest of the line). -/
structure TimedMatch where
  minutes : ℕ
  seconds : ℕ
  frac : List Char
  rest : List Char
deriving DecidableEq, Repr

/-- Attempt the timed-cue pattern `\[(\d{2}):(\d{2})\.(\d{2,3})\](.*)` at the
head of the character list. The `\d{2,3}` group is greedy: three digits are
tried first and the engine backtracks to two only when the character after the
second digit is `]`; `(.*)` captures the remainder of the line. -/
def timedHere : List Char → Option TimedMatch
  | '[' :: m1 :: m2 :: ':' :: s1 :: s2 :: '.' :: f1 :: f2 :: rest =>
    if isDig m1 && isDig m2 && isDig s1 && isDig s2 && isDig f1 && isDig f2 then
      match rest with
      | ']' :: tail =>
        some ⟨digitsToNat [m1, m2], digitsToNat [s1, s2], [f1, f2], tail⟩
      | f3 :: ']' :: tail =>
        if isDig f3 then
          some ⟨digitsToNat [m1, m2], digitsToNat [s1, s2], [f1, f2, f3], tail⟩
        else none
      | _ => none
    else none
  | _ => none

/-- `line.match(timedRegex)`: the regex is unanchored, so the engine tries
each start position left to right and returns the leftmost match. -/
def findTimed : List Char → Option TimedMatch
  | [] => none
  | c :: cs =>
    match timedHere (c :: cs) with
    | some r => some r
    | none => findTimed cs

/-- `(.*)\]` suffix of the metadata regex: `(.*)` is greedy and backtracks to
the final `]`, so the capture is everything before the last `]`, which must
exist. Returns the captured value. -/
def valueBeforeLastBracket (l : List Char) : Option (List Char) :=
  match l.reverse.dropWhile (fun c => !(c = ']')) with
  | ']' :: pre => some pre.reverse
  | _ => none

/-- Attempt the metadata pattern `\[(\w+):(.*)\]` at the head of the list:
`[`, a maximal nonempty run of word characters (backtracking inside the run
cannot help since `:` is not a word character), `:`, then `(.*)]`. -/
def metaHere (l : List Char) : Option (List Char × List Char) :=
  match l with
  | '[' :: rest =>
    let key := rest.takeWhile isWordChar
    match key, rest.dropWhile isWordChar with
    | _ :: _, ':' :: rest2 =>
      match valueBeforeLastBracket rest2 with
      | some v => some (key, v)
      | none => none
    | _, _ => none
  | _ => none

/-- `line.match(metaRegex)`: leftmost match of the metadata pattern. -/
def findMeta : List Char → Option (List Char × List Char)
  | [] => none
  | c :: cs =>
    match metaHere (c :: cs) with
    | some r => some r
    | none => findMeta cs

/-- One parsed lyric cue: `{ time, text }` pushed by `LRCParser.parse`. -/
structure Cue where
  time : ℚ
  text : String
deriving DecidableEq, Repr

/-- The cue built from one line when the timed regex matches:
`minutes*60 + seconds + parseInt(frac.padEnd(3,'0'))/1000`, text trimmed. -/
def cueOfMatch (r : TimedMatch) : Cue :=
  { time := (r.minutes : ℚ) * 60 + (r.seconds : ℚ) + (digitsToNat (padEnd3 r.frac) : ℚ) / 1000
    text := String.mk (jsTrim r.rest) }

/-- Per-line timed-cue extraction of `LRCParser.parse`. -/
def lineCue (l : List Char) : Option Cue :=
  (findTimed l).map cueOfMatch

/-- Per-line metadata extraction: only attempted when the timed regex does
not match the line. -/
def lineMeta (l : List Char) : Option (String × String) :=
  match findTimed l with
  | some _ => none
  | none => (findMeta l).map (fun p => (String.mk p.1, String.mk p.2))

/-- JS `content.split('\n')`. -/
def splitNewlines : List Char → List (List Char)
  | [] => [[]]
  | c :: rest =>
    if c = '\n' then [] :: splitNewlines rest
    else
      match splitNewlines rest with
      | [] => [[c]]
      | l :: ls => (c :: l) :: ls

/-- The comparison relation of `lyrics.sort((a, b) => a.time - b.time)`:
ascending by `time`. -/
def cueLE (a b : Cue) : Prop := a.time ≤ b.time

instance : DecidableRel cueLE := fun a b => inferInstanceAs (Decidable (a.time ≤ b.time))

instance : IsTotal Cue cueLE := ⟨fun a b => le_total a.time b.time⟩

instance : IsTrans Cue cueLE := ⟨fun _ _ _ h1 h2 => le_trans h1 h2⟩

/-- Parse result of `LRCParser.parse`: `{ lyrics, metadata }`. The metadata
object is modelled as the list of `(key, value)` assignments in input order
(JS object assignment is last-write-wins on duplicate keys). -/
structure LyricsDoc where
  lyrics : List Cue
  metadata : List (String × String)
deriving DecidableEq, Repr

/-- The cue list extracted line by line, in input (file) order, before the
final sort. -/
def rawCues (content : String) : List Cue :=
  (splitNewlines content.data).filterMap lineCue

/-- `LRCParser.parse`: split on newlines, extract a timed cue (or else a
metadata pair) per line, then `lyrics.sort((a, b) => a.time - b.time)`.
`Array.prototype.sort` is required by ECMA-262 to be stable, and with this
comparator it sorts ascending by `time`; `List.insertionSort cueLE` is such a
stable ascending sort, so it computes the same list. -/
def LRCParser.parse (content : String) : LyricsDoc :=
  { lyrics := List.insertionSort cueLE (rawCues content)
    metadata := (splitNewlines content.data).filterMap lineMeta }

/-!
## Cue tracker

`_updateLyrics` (main.js lines 296–315) scans `i` from `lyrics.length - 1`
down to `0` and stops at the first `i` with `lyrics[i].time <= currentTime`,
i.e. it computes the greatest such index, and `-1` when none exists. The
recursion below computes exactly that value: the greatest matching index of
`c :: cs` is the greatest matching index of `cs` shifted by one when the
latter exists, and otherwise `0` or `-1` according to the head's time.
-/

/-- Active-cue index: greatest `i` with `cues[i].time ≤ t`, else `-1`. -/
def activeIndex (cues : List Cue) (t : ℚ) : ℤ :=
  match cues with
  | [] => -1
  | c :: cs =>
    let r := activeIndex cs t
    if 0 ≤ r then r + 1
    else if c.time ≤ t then 0 else -1

/-!
## Player state

The mutable fields of `LyricsPlayerApp` used by the claims, plus the state of
the loaded `Audio` element (the external transport). `updateInterval` records
whether the 100 ms sampling interval handle is set. `released` is a ghost
history of previously loaded audio elements at the moment they were dropped,
recording that they were paused (stopped) before release.
-/

/-- The state of an HTML `Audio` element as read/written by main.js. A fresh
element starts paused at position 0 with volume 1; `duration` is reported by
the element once metadata is loaded. -/
structure AudioEl where
  position : ℚ
  paused : Bool
  volume : ℚ
  duration : ℚ
deriving DecidableEq, Repr

/-- The `HTMLMediaElement` `currentTime` setter: the browser clamps the seek
target to the seekable range `[0, duration]`. -/
def setCurrentTime (a : AudioEl) (t : ℚ) : AudioEl :=
  { a with position := max 0 (min t a.duration) }

/-- The mutable per-player state of `LyricsPlayerApp`. -/
structure PlayerState where
  audio : Option AudioEl
  lyrics : List Cue
  currentLyricIndex : ℤ
  isPlaying : Bool
  updateInterval : Bool
  released : List AudioEl
deriving DecidableEq, Repr

/-- The state set up by the `LyricsPlayerApp` constructor (lines 53–62):
`audio = null`, `lyrics = []`, `currentLyricIndex = 0`, `isPlaying = false`,
`updateInterval = null`. -/
def initialState : PlayerState :=
  { audio := none
    lyrics := []
    currentLyricIndex := 0
    isPlaying := false
    updateInterval := false
    released := [] }

/-- `_updateLyrics` (lines 296–315): returns the updated state and whether
`_renderLyrics` was invoked. Early return when no audio is loaded or the cue
list is empty; otherwise compute the active index by the backward scan and
re-render exactly when it differs from the stored index. -/
def updateLyrics (s : PlayerState) : PlayerState × Bool :=
  match s.audio with
  | none => (s, false)
  | some a =>
    if s.lyrics.isEmpty then (s, false)
    else
      let idx := activeIndex s.lyrics a.position
      if idx ≠ s.currentLyricIndex then
        ({ s with currentLyricIndex := idx }, true)
      else (s, false)

/-- `_onSeek` (lines 260–267): early return with no audio; otherwise assign
`audio.currentTime = time` (clamped by the media element) and immediately run
`_updateLyrics`. (`_broadcastState` does not change local state.) -/
def onSeek (s : PlayerState) (t : ℚ) : PlayerState :=
  match s.audio with
  | none => s
  | some a => (updateLyrics { s with audio := some (setCurrentTime a t) }).1

/-- `_loadAudioFile` (lines 153–179): if audio is loaded, pause it and drop
the reference; then create a fresh `Audio` element for the new source (paused,
position 0, default volume 1, duration `d` once metadata loads). The
`isPlaying` flag and the sampling interval are not touched. -/
def loadAudioFile (s : PlayerState) (d : ℚ) : PlayerState :=
  let s1 :=
    match s.audio with
    | some a => { s with audio := none, released := s.released ++ [{ a with paused := true }] }
    | none => s
  { s1 with audio := some { position := 0, paused := true, volume := 1, duration := d } }

/-- A `playerState` socket message: `{ isPlaying, currentTime, volume }`. -/
structure StateMsg where
  isPlaying : Bool
  currentTime : ℚ
  volume : ℚ
deriving DecidableEq, Repr

/-- The `'playerState'` branch of `handleSocketMessage` (lines 524–541): with
no audio loaded the message is dropped; otherwise seek only when the local
position differs from the incoming one by more than 1 second (the assignment
going through the clamping `currentTime` setter), always overwrite the volume,
and reconcile play/pause against the transport's `paused` flag, starting or
stopping the sampling interval accordingly. -/
def applyPlayerState (s : PlayerState) (m : StateMsg) : PlayerState :=
  match s.audio with
  | none => s
  | some a =>
    let a1 := if 1 < |a.position - m.currentTime| then setCurrentTime a m.currentTime else a
    let a2 := { a1 with volume := m.volume }
    if m.isPlaying && a2.paused then
      { s with audio := some { a2 with paused := false }, isPlaying := true, updateInterval := true }
    else if !m.isPlaying && !a2.paused then
      { s with audio := some { a2 with paused := true }, isPlaying := false, updateInterval := false }
    else
      { s with audio := some a2 }

/-- The cue list of the spec's cue-tracker boundary example. -/
def demoCues : List Cue := [⟨0, "A"⟩, ⟨5, "B"⟩, ⟨10, "C"⟩]

/-- A receiving peer with audio loaded at position 10 s, for the spec's
reconciliation-tolerance example. -/
def syncDemoState : PlayerState :=
  { audio := some ⟨10, true, 1/2, 200⟩
    lyrics := []
    currentLyricIndex := 0
    isPlaying := false
    updateInterval := false
    released := [] }

/-- A session that is playing (audio loaded, lyrics loaded, sampling loop
running), used as a concrete test state. -/
def playingState : PlayerState :=
  { audio := some ⟨7, false, 1, 300⟩
    lyrics := demoCues
    currentLyricIndex := 0
    isPlaying := true
    updateInterval := true
    released := [] }

theorem activeIndex_nil (t : ℚ) : activeIndex [] t = -1 := rfl

theorem activeIndex_cons (c : Cue) (cs : List Cue) (t : ℚ) :
    activeIndex (c :: cs) t =
      if 0 ≤ activeIndex cs t then activeIndex cs t + 1
      else if c.time ≤ t then 0 else -1 := rfl

theorem activeIndex_ge_neg_one (cues : List Cue) (t : ℚ) : -1 ≤ activeIndex cues t := by
  induction cues with
  | nil => exact le_refl _
  | cons c cs ih =>
    rw [activeIndex_cons]
    split
    · omega
    · split <;> omega

theorem activeIndex_lt_length (cues : List Cue) (t : ℚ) :
    activeIndex cues t < cues.length := by
  induction cues with
  | nil => simp [activeIndex_nil]
  | cons c cs ih =>
    rw [activeIndex_cons]
    simp only [List.length_cons]
    split
    · push_cast; omega
    · split <;> (push_cast; omega)

theorem activeIndex_nonneg_iff (cues : List Cue) (t : ℚ) :
    0 ≤ activeIndex cues t ↔ ∃ i : Fin cues.length, (cues.get i).time ≤ t := by
  induction cues with
  | nil =>
    simp [activeIndex_nil]
  | cons c cs ih =>
    rw [activeIndex_cons]
    constructor
    · intro h
      split at h
      · rename_i h0
        obtain ⟨i, hi⟩ := ih.mp h0
        exact ⟨i.succ, hi⟩
      · split at h
        · rename_i hc
          exact ⟨⟨0, Nat.succ_pos _⟩, hc⟩
        · omega
    · rintro ⟨i, hi⟩
      rcases i with ⟨iv, hv⟩
      cases iv with
      | zero =>
        split
        · omega
        · simp only [List.get] at hi
          rw [if_pos hi]
      | succ n =>
        have : ∃ j : Fin cs.length, (cs.get j).time ≤ t :=
          ⟨⟨n, Nat.lt_of_succ_lt_succ hv⟩, hi⟩
        have h0 := ih.mpr this
        rw [if_pos h0]
        omega

theorem activeIndex_eq_iff (cues : List Cue) (t : ℚ) (i : Fin cues.length) :
    activeIndex cues t = (i : ℕ) ↔
      ((cues.get i).time ≤ t ∧
        ∀ j : Fin cues.length, (i : ℕ) < (j : ℕ) → t < (cues.get j).time) := by
  induction cues with
  | nil => exact absurd i.2 (by simp)
  | cons c cs ih =>
    rw [activeIndex_cons]
    rcases i with ⟨iv, hv⟩
    cases iv with
    | zero =>
      have hg0 : (c :: cs).get ⟨0, hv⟩ = c := rfl
      rw [hg0]
      simp only [Fin.val_mk, Nat.cast_zero]
      constructor
      · intro h
        split at h
        · omega
        · split at h
          · rename_i hng hc
            refine ⟨hc, ?_⟩
            rw [activeIndex_nonneg_iff] at hng
            push_neg at hng
            rintro ⟨jv, hj⟩ hjpos
            simp only [Fin.val_mk] at hjpos
            cases jv with
            | zero => omega
            | succ m =>
              have hm : m < cs.length := Nat.lt_of_succ_lt_succ hj
              have hgm : (c :: cs).get ⟨m + 1, hj⟩ = cs.get ⟨m, hm⟩ := rfl
              rw [hgm]
              simpa using hng ⟨m, hm⟩
          · omega
      · rintro ⟨hc, hrest⟩
        have hng : ¬ 0 ≤ activeIndex cs t := by
          rw [activeIndex_nonneg_iff]
          push_neg
          rintro ⟨jv, hj⟩
          rw [← not_le]
          intro hle
          have hj2 : jv + 1 < (c :: cs).length := Nat.succ_lt_succ hj
          have := hrest ⟨jv + 1, hj2⟩ (by simp)
          have hgj : (c :: cs).get ⟨jv + 1, hj2⟩ = cs.get ⟨jv, hj⟩ := rfl
          rw [hgj] at this
          exact absurd hle (not_le.mpr this)
        rw [if_neg hng, if_pos hc]
    | succ n =>
      have hn : n < cs.length := Nat.lt_of_succ_lt_succ hv
      have hget : (c :: cs).get ⟨n + 1, hv⟩ = cs.get ⟨n, hn⟩ := rfl
      rw [hget]
      simp only [Fin.val_mk]
      constructor
      · intro h
        have hpos : 0 ≤ activeIndex cs t := by
          by_contra hng
          rw [if_neg hng] at h
          split at h <;> omega
        rw [if_pos hpos] at h
        have hr : activeIndex cs t = ((⟨n, hn⟩ : Fin cs.length) : ℕ) := by
          simp only [Fin.val_mk]
          push_cast at h ⊢
          omega
        have hmain := (ih ⟨n, hn⟩).mp hr
        refine ⟨hmain.1, ?_⟩
        rintro ⟨jv, hj⟩ hjgt
        simp only [Fin.val_mk] at hjgt
        cases jv with
        | zero => omega
        | succ m =>
          have hm : m < cs.length := Nat.lt_of_succ_lt_succ hj
          have hgm : (c :: cs).get ⟨m + 1, hj⟩ = cs.get ⟨m, hm⟩ := rfl
          rw [hgm]
          have := hmain.2 ⟨m, hm⟩ (by simpa using Nat.lt_of_succ_lt_succ hjgt)
          simpa using this
      · rintro ⟨hle, hrest⟩
        have hr : activeIndex cs t = ((⟨n, hn⟩ : Fin cs.length) : ℕ) := by
          rw [ih ⟨n, hn⟩]
          refine ⟨hle, ?_⟩
          rintro ⟨jv, hj⟩ hjgt
          simp only [Fin.val_mk] at hjgt
          have hj2 : jv + 1 < (c :: cs).length := Nat.succ_lt_succ hj
          have := hrest ⟨jv + 1, hj2⟩ (by simpa using Nat.succ_lt_succ hjgt)
          have hgj : (c :: cs).get ⟨jv + 1, hj2⟩ = cs.get ⟨jv, hj⟩ := rfl
          rw [hgj] at this
          simpa using this
        simp only [Fin.val_mk] at hr
        have hpos : 0 ≤ activeIndex cs t := by omega
        rw [if_pos hpos, hr]
        push_cast
        ring

theorem activeIndex_eq_neg_one_iff (cues : List Cue) (t : ℚ) :
    activeIndex cues t = -1 ↔ ∀ i : Fin cues.length, t < (cues.get i).time := by
  have hge := activeIndex_ge_neg_one cues t
  constructor
  · intro h i
    by_contra hnot
    rw [not_lt] at hnot
    have : 0 ≤ activeIndex cues t := (activeIndex_nonneg_iff cues t).mpr ⟨i, hnot⟩
    omega
  · intro h
    by_contra hne
    have hpos : 0 ≤ activeIndex cues t := by omega
    obtain ⟨i, hi⟩ := (activeIndex_nonneg_iff cues t).mp hpos
    exact absurd hi (not_le.mpr (h i))

/-- **C1** Cue tracker correctness. -/
theorem claim_c1_cue_tracker (cues : List Cue) (t : ℚ) :
    (∀ i : Fin cues.length,
        activeIndex cues t = (i : ℕ) ↔
          ((cues.get i).time ≤ t ∧
            ∀ j : Fin cues.length, (i : ℕ) < (j : ℕ) → t < (cues.get j).time)) ∧
    (activeIndex cues t = -1 ↔ ∀ i : Fin cues.length, t < (cues.get i).time) ∧
    (cues = [] → activeIndex cues t = -1) ∧
    (∀ c cs, cues = c :: cs → List.Chain' cueLE cues → t < c.time →
      activeIndex cues t = -1) ∧
    (activeIndex demoCues (4999/1000) = 0 ∧ activeIndex demoCues 5 = 1 ∧
      activeIndex demoCues (-1) = -1 ∧ activeIndex demoCues 100 = 2) := by
  refine ⟨activeIndex_eq_iff cues t, activeIndex_eq_neg_one_iff cues t, ?_, ?_, ?_, ?_, ?_, ?_⟩
  · rintro rfl; exact activeIndex_nil t
  · rintro c cs rfl hchain hlt
    rw [activeIndex_eq_neg_one_iff]
    have hpair : List.Pairwise cueLE (c :: cs) := List.chain'_iff_pairwise.mp hchain
    rintro ⟨iv, hi⟩
    cases iv with
    | zero => exact hlt
    | succ m =>
      have hm : m < cs.length := Nat.lt_of_succ_lt_succ hi
      have hmem : cs.get ⟨m, hm⟩ ∈ cs := List.get_mem cs m hm
      have hcle : cueLE c (cs.get ⟨m, hm⟩) := List.rel_of_pairwise_cons hpair hmem
      have hgm : (c :: cs).get ⟨m + 1, hi⟩ = cs.get ⟨m, hm⟩ := rfl
      rw [hgm]
      exact lt_of_lt_of_le hlt hcle
  · norm_num [demoCues, activeIndex_cons, activeIndex_nil]
  · norm_num [demoCues, activeIndex_cons, activeIndex_nil]
  · norm_num [demoCues, activeIndex_cons, activeIndex_nil]
  · norm_num [demoCues, activeIndex_cons, activeIndex_nil]

/-- Witness for C1 at the spec's concrete inputs. -/
theorem claim_c1_cue_tracker_witness :
    activeIndex demoCues (-1) = -1 ∧ activeIndex demoCues 5 = 1 := by
  constructor
  · exact (claim_c1_cue_tracker demoCues (-1)).2.2.2.1 ⟨0, "A"⟩ [⟨5, "B"⟩, ⟨10, "C"⟩] rfl
      (by norm_num [demoCues, List.chain'_cons, cueLE]) (by norm_num)
  · exact ((claim_c1_cue_tracker demoCues 5).1 ⟨1, by norm_num [demoCues]⟩).mpr
      ⟨by norm_num [demoCues], by
        rintro ⟨jv, hj⟩ hgt
        simp only [demoCues, List.length_cons, List.length_nil] at hj
        interval_cases jv <;> simp_all [demoCues] <;> norm_num⟩

theorem filter_orderedInsert (x : Cue) (l : List Cue) (p : Cue → Bool)
    (hlt : ∀ y : Cue, p y = true → ∀ z : Cue, z.time < y.time → p z = false) :
    (List.orderedInsert cueLE x l).filter p =
      if p x then x :: l.filter p else l.filter p := by
  induction l with
  | nil => by_cases hx : p x <;> simp [List.orderedInsert, List.filter, hx]
  | cons y ys ih =>
    rw [List.orderedInsert]
    by_cases hc : cueLE x y
    · rw [if_pos hc]
      by_cases hx : p x <;> simp [List.filter, hx]
    · rw [if_neg hc]
      have hylt : y.time < x.time := lt_of_not_le hc
      by_cases hx : p x
      · have hy : p y = false := hlt x hx y hylt
        simp [List.filter, hy, hx, ih]
      · simp only [List.filter]
        rw [ih]
        simp [hx]

theorem filter_insertionSort (l : List Cue) (p : Cue → Bool)
    (hlt : ∀ y : Cue, p y = true → ∀ z : Cue, z.time < y.time → p z = false) :
    (List.insertionSort cueLE l).filter p = l.filter p := by
  induction l with
  | nil => rfl
  | cons x xs ih =>
    rw [List.insertionSort, filter_orderedInsert x _ p hlt]
    by_cases hx : p x <;> simp [List.filter, hx, ih]

/-- **C4** Sort invariant with stability. -/
theorem claim_c4_sort_stable (text : String) :
    List.Chain' (fun a b : Cue => a.time ≤ b.time) (LRCParser.parse text).lyrics ∧
    (∀ q : ℚ,
      (LRCParser.parse text).lyrics.filter (fun c => decide (c.time = q)) =
        (rawCues text).filter (fun c => decide (c.time = q))) := by
  constructor
  · have h := List.sorted_insertionSort cueLE (rawCues text)
    exact h.chain'
  · intro q
    exact filter_insertionSort (rawCues text) _
      (fun y hy z hz => by
        simp only [decide_eq_true_eq] at hy
        simp only [decide_eq_false_iff_not]
        rw [hy] at hz
        exact ne_of_lt hz)

theorem timedHere_frac_length {l : List Char} {r : TimedMatch}
    (h : timedHere l = some r) : r.frac.length = 2 ∨ r.frac.length = 3 := by
  unfold timedHere at h
  split at h
  · split at h
    · split at h
      · obtain rfl := Option.some.inj h
        left
        rfl
      · split at h
        · obtain rfl := Option.some.inj h
          right
          rfl
        · exact absurd h (by simp)
      · exact absurd h (by simp)
    · exact absurd h (by simp)
  · exact absurd h (by simp)

theorem findTimed_frac_length :
    ∀ {l : List Char} {r : TimedMatch}, findTimed l = some r →
      r.frac.length = 2 ∨ r.frac.length = 3 := by
  intro l
  induction l with
  | nil => intro r h; exact absurd h (by simp [findTimed])
  | cons c cs ih =>
    intro r h
    rw [findTimed] at h
    rcases h' : timedHere (c :: cs) with _ | s
    · rw [h'] at h
      exact ih h
    · rw [h'] at h
      obtain rfl := Option.some.inj h
      exact timedHere_frac_length h'

theorem digitsToNat_padEnd3 {l : List Char} (h : l.length = 2 ∨ l.length = 3) :
    digitsToNat (padEnd3 l) = digitsToNat l * 10 ^ (3 - l.length) := by
  rcases h with h | h
  · match l, h with
    | [a, b], _ =>
      show digitsToNat [a, b, '0'] = digitsToNat [a, b] * 10 ^ 1
      simp [digitsToNat]
      ring
  · match l, h with
    | [a, b, c], _ =>
      show digitsToNat [a, b, c] = digitsToNat [a, b, c] * 10 ^ 0
      simp

theorem findTimed_none_drop :
    ∀ l : List Char, findTimed l = none → ∀ j, timedHere (l.drop j) = none := by
  intro l
  induction l with
  | nil => intro _ j; cases j <;> rfl
  | cons c cs ih =>
    intro h j
    rw [findTimed] at h
    rcases h' : timedHere (c :: cs) with _ | s
    · rw [h'] at h
      cases j with
      | zero => exact h'
      | succ k => exact ih h k
    · rw [h'] at h
      exact absurd h (by simp)

theorem findTimed_of_leftmost :
    ∀ (l : List Char) (j : ℕ) (r : TimedMatch),
      (∀ k, k < j → timedHere (l.drop k) = none) →
      timedHere (l.drop j) = some r → findTimed l = some r := by
  intro l
  induction l with
  | nil =>
    intro j r _ h
    rw [List.drop_nil] at h
    exact absurd h (by simp [timedHere])
  | cons c cs ih =>
    intro j r hk h
    cases j with
    | zero =>
      rw [List.drop_zero] at h
      rw [findTimed, h]
    | succ m =>
      have h0 : timedHere (c :: cs) = none := hk 0 (Nat.succ_pos m)
      rw [findTimed, h0]
      exact ih m r (fun k hlt => hk (k + 1) (Nat.succ_lt_succ hlt)) h

/-- **C3 counterexample**: the line `[00:01.5]Hi` has a 1-digit fraction, so
the timed regex (which requires 2–3 fraction digits) does not match it; the
line is consumed by the metadata pattern instead and no cue is produced. -/
theorem claim_c3_counterexample :
    (LRCParser.parse "[00:01.5]Hi").lyrics = [] ∧
    (LRCParser.parse "[00:01.5]Hi").metadata = [("00", "01.5")] := by
  constructor <;> decide

/-- **C3 (amended)** Parser time arithmetic and fraction padding. -/
theorem claim_c3_fraction_padding :
    (∀ (l : List Char) (r : TimedMatch), findTimed l = some r →
      (r.frac.length = 2 ∨ r.frac.length = 3)) ∧
    (∀ (l : List Char) (r : TimedMatch), findTimed l = some r →
      (cueOfMatch r).time = (r.minutes : ℚ) * 60 + (r.seconds : ℚ) +
        ((digitsToNat r.frac : ℚ) * 10 ^ (3 - r.frac.length)) / 1000) ∧
    findTimed "[00:01.5]Hi".data = none ∧
    (LRCParser.parse "[00:01.50]Hi").lyrics = [⟨3/2, "Hi"⟩] := by
  refine ⟨fun l r h => findTimed_frac_length h, fun l r h => ?_, by decide, ?_⟩
  · have hlen := findTimed_frac_length h
    rw [cueOfMatch, digitsToNat_padEnd3 hlen]
    push_cast
    ring
  · have hsplit : splitNewlines "[00:01.50]Hi".data = ["[00:01.50]Hi".data] := by decide
    have hft : findTimed "[00:01.50]Hi".data = some ⟨0, 1, ['5', '0'], ['H', 'i']⟩ := by decide
    have hd : digitsToNat (padEnd3 ['5', '0']) = 500 := by decide
    show List.insertionSort cueLE (rawCues "[00:01.50]Hi") = _
    rw [rawCues, hsplit]
    have h1 : ["[00:01.50]Hi".data].filterMap lineCue =
        [cueOfMatch ⟨0, 1, ['5', '0'], ['H', 'i']⟩] := by
      simp [lineCue, hft]
    rw [h1]
    simp only [List.insertionSort, List.orderedInsert, cueOfMatch, hd]
    norm_num
    decide

/-- Witness for C3 (amended): the padding formula evaluated on the 2-digit
fraction of `[00:01.50]Hi`. -/
theorem claim_c3_fraction_padding_witness :
    (cueOfMatch ⟨0, 1, ['5', '0'], ['H', 'i']⟩).time =
      (0 : ℚ) * 60 + 1 + ((50 : ℚ) * 10 ^ (3 - 2 : ℕ)) / 1000 := by
  have h : findTimed "[00:01.50]Hi".data = some ⟨0, 1, ['5', '0'], ['H', 'i']⟩ := by decide
  have hd : digitsToNat ['5', '0'] = 50 := by decide
  have hmain := claim_c3_fraction_padding.2.1 "[00:01.50]Hi".data _ h
  simpa [hd] using hmain

/-- **C10** Unanchored timed-cue matching. -/
theorem claim_c10_unanchored (l : List Char) :
    ((∃ j, (timedHere (l.drop j)).isSome) → (lineCue l).isSome) ∧
    (∀ (j : ℕ) (r : TimedMatch),
      (∀ k, k < j → timedHere (l.drop k) = none) → timedHere (l.drop j) = some r →
        lineCue l = some (cueOfMatch r)) ∧
    (∀ (text : String) (line : List Char) (c : Cue),
      line ∈ splitNewlines text.data → lineCue line = some c →
        c ∈ (LRCParser.parse text).lyrics) ∧
    (LRCParser.parse "intro [00:01.00]Hi").lyrics = [⟨1, "Hi"⟩] := by
  refine ⟨?_, ?_, ?_, ?_⟩
  · rintro ⟨j, hj⟩
    rw [lineCue]
    rcases hf : findTimed l with _ | r
    · rw [findTimed_none_drop l hf j] at hj
      exact absurd hj (by simp)
    · simp
  · intro j r hk h
    rw [lineCue, findTimed_of_leftmost l j r hk h]
    rfl
  · intro text line c hline hcue
    have hraw : c ∈ rawCues text := List.mem_filterMap.mpr ⟨line, hline, hcue⟩
    exact ((List.perm_insertionSort cueLE (rawCues text)).mem_iff).mpr hraw
  · have hsplit : splitNewlines "intro [00:01.00]Hi".data = ["intro [00:01.00]Hi".data] := by
      decide
    have hft : findTimed "intro [00:01.00]Hi".data = some ⟨0, 1, ['0', '0'], ['H', 'i']⟩ := by
      decide
    have hd : digitsToNat (padEnd3 ['0', '0']) = 0 := by decide
    show List.insertionSort cueLE (rawCues "intro [00:01.00]Hi") = _
    rw [rawCues, hsplit]
    have h1 : ["intro [00:01.00]Hi".data].filterMap lineCue =
        [cueOfMatch ⟨0, 1, ['0', '0'], ['H', 'i']⟩] := by
      simp [lineCue, hft]
    rw [h1]
    simp only [List.insertionSort, List.orderedInsert, cueOfMatch, hd]
    norm_num
    decide

/-- Witness for C10: the spec example line, with the (unique, hence leftmost)
match at position 6. -/
theorem claim_c10_unanchored_witness :
    lineCue "intro [00:01.00]Hi".data = some (cueOfMatch ⟨0, 1, ['0', '0'], ['H', 'i']⟩) :=
  (claim_c10_unanchored "intro [00:01.00]Hi".data).2.1 6 ⟨0, 1, ['0', '0'], ['H', 'i']⟩
    (by decide) (by decide)

/-- **C2** StateSync reconciliation tolerance. -/
theorem claim_c2_sync_tolerance (s : PlayerState) (a : AudioEl) (m : StateMsg)
    (h : s.audio = some a) :
    (∃ a' : AudioEl, (applyPlayerState s m).audio = some a' ∧
      a'.volume = m.volume ∧
      a'.position =
        (if 1 < |a.position - m.currentTime|
          then max 0 (min m.currentTime a.duration) else a.position)) ∧
    applyPlayerState syncDemoState ⟨false, 54/5, 1/2⟩ = syncDemoState ∧
    (applyPlayerState syncDemoState ⟨false, 56/5, 1/2⟩).audio = some ⟨56/5, true, 1/2, 200⟩ := by
  refine ⟨?_, ?_, ?_⟩
  · rcases s with ⟨audio, lyr, idx, isp, upd, rel⟩
    simp only [PlayerState.audio] at h
    subst h
    rcases a with ⟨pos, pau, vol, dur⟩
    rcases m with ⟨mip, mct, mv⟩
    simp only [applyPlayerState, setCurrentTime]
    by_cases h1 : 1 < |pos - mct| <;>
      simp only [h1, if_true, if_false] <;>
      cases mip <;> cases pau <;>
      simp
  · have hno : ¬ (1 : ℚ) < |(10 : ℚ) - 54/5| := by
      rw [abs_of_nonpos (by norm_num)]
      norm_num
    simp [applyPlayerState, syncDemoState, setCurrentTime, hno]
  · have hyes : (1 : ℚ) < |(10 : ℚ) - 56/5| := by
      rw [abs_of_nonpos (by norm_num)]
      norm_num
    have hclamp : max (0 : ℚ) (min (56/5) 200) = 56/5 := by norm_num
    simp [applyPlayerState, syncDemoState, setCurrentTime, hyes, hclamp]

/-- Witness for C2: the spec's two concrete reconciliation examples. -/
theorem claim_c2_sync_tolerance_witness :
    applyPlayerState syncDemoState ⟨false, 54/5, 1/2⟩ = syncDemoState ∧
    (applyPlayerState syncDemoState ⟨false, 56/5, 1/2⟩).audio = some ⟨56/5, true, 1/2, 200⟩ :=
  ⟨(claim_c2_sync_tolerance syncDemoState ⟨10, true, 1/2, 200⟩ ⟨false, 54/5, 1/2⟩ rfl).2.1,
   (claim_c2_sync_tolerance syncDemoState ⟨10, true, 1/2, 200⟩ ⟨false, 54/5, 1/2⟩ rfl).2.2⟩

/-- **C5** StateSync idempotence: applying the same message twice (with no
time passing in between) yields the same local state as applying it once. -/
theorem claim_c5_sync_idempotent (s : PlayerState) (m : StateMsg) :
    applyPlayerState (applyPlayerState s m) m = applyPlayerState s m := by
  rcases s with ⟨audio, lyr, idx, isp, upd, rel⟩
  rcases audio with _ | a
  · rfl
  · rcases a with ⟨pos, pau, vol, dur⟩
    rcases m with ⟨mip, mct, mv⟩
    by_cases h1 : 1 < |pos - mct| <;> cases mip <;> cases pau <;>
      simp [applyPlayerState, setCurrentTime, h1]

/-- **C6 counterexample**: loading a new audio source from the Loaded-Playing
state `playingState` leaves `isPlaying = true` and the sampling interval
running, contradicting the claimed Loaded-Paused postcondition. -/
theorem claim_c6_counterexample :
    ¬ ((loadAudioFile playingState 100).isPlaying = false ∧
       (loadAudioFile playingState 100).updateInterval = false) := by
  simp [loadAudioFile, playingState]

/-- **C6 (amended)** loadAudio postcondition: the new source starts paused at
position 0 and the previous source is paused (stopped) and released, but the
`isPlaying` flag and the sampling interval are left unchanged. -/
theorem claim_c6_load_audio (s : PlayerState) (d : ℚ) :
    (loadAudioFile s d).audio = some ⟨0, true, 1, d⟩ ∧
    (loadAudioFile s d).isPlaying = s.isPlaying ∧
    (loadAudioFile s d).updateInterval = s.updateInterval ∧
    (∀ a : AudioEl, s.audio = some a →
      (loadAudioFile s d).released = s.released ++ [{ a with paused := true }]) ∧
    (s.audio = none → (loadAudioFile s d).released = s.released) := by
  rcases s with ⟨audio, lyr, idx, isp, upd, rel⟩
  rcases audio with _ | a <;> simp [loadAudioFile]

/-- Witness for C6 (amended): loading over `playingState` releases the old,
now-paused audio element and resets the transport, with the flag and loop
untouched. -/
theorem claim_c6_load_audio_witness :
    (loadAudioFile playingState 100).audio = some ⟨0, true, 1, 100⟩ ∧
    (loadAudioFile playingState 100).released = [⟨7, true, 1, 300⟩] := by
  have hmain := claim_c6_load_audio playingState 100
  refine ⟨hmain.1, ?_⟩
  have := hmain.2.2.2.1 ⟨7, false, 1, 300⟩ rfl
  simpa [playingState] using this

/-- **C7 counterexample**: the freshly constructed player has
`currentLyricIndex = 0` with an empty cue list, which is neither `-1` nor a
valid index. -/
theorem claim_c7_counterexample :
    ¬ (initialState.currentLyricIndex = -1 ∨
       (0 ≤ initialState.currentLyricIndex ∧
        initialState.currentLyricIndex < initialState.lyrics.length)) := by
  simp [initialState]

/-- **C7 (amended)** Active-cue index invariant after a completed evaluation:
whenever `_updateLyrics` runs with audio loaded and a nonempty cue list, the
stored index afterwards is `-1` or a valid index into the cue list. -/
theorem claim_c7_index_invariant (s : PlayerState) (a : AudioEl)
    (h : s.audio = some a) (hne : s.lyrics ≠ []) :
    (updateLyrics s).1.currentLyricIndex = -1 ∨
      (0 ≤ (updateLyrics s).1.currentLyricIndex ∧
        (updateLyrics s).1.currentLyricIndex < s.lyrics.length) := by
  have hidx : (updateLyrics s).1.currentLyricIndex = activeIndex s.lyrics a.position := by
    rw [updateLyrics, h]
    simp only [List.isEmpty_eq_true]
    rw [if_neg hne]
    split
    · rfl
    · rename_i heq
      rw [not_ne_iff] at heq
      exact heq.symm
  rw [hidx]
  have h1 := activeIndex_ge_neg_one s.lyrics a.position
  have h2 := activeIndex_lt_length s.lyrics a.position
  omega

/-- Witness for C7 (amended) at the concrete playing session. -/
theorem claim_c7_index_invariant_witness :
    (updateLyrics playingState).1.currentLyricIndex = -1 ∨
      (0 ≤ (updateLyrics playingState).1.currentLyricIndex ∧
        (updateLyrics playingState).1.currentLyricIndex < playingState.lyrics.length) :=
  claim_c7_index_invariant playingState ⟨7, false, 1, 300⟩ rfl
    (by simp [playingState, demoCues])

/-- **C8** Seek postcondition: the applied position is the seek target clamped
to `[0, duration]` (by the media element's `currentTime` setter), play/pause
state and the sampling loop are unchanged, and the cue tracker is re-evaluated
immediately within the same operation. -/
theorem claim_c8_seek (s : PlayerState) (a : AudioEl) (t : ℚ) (h : s.audio = some a) :
    (onSeek s t).audio = some { a with position := max 0 (min t a.duration) } ∧
    (onSeek s t).isPlaying = s.isPlaying ∧
    (onSeek s t).updateInterval = s.updateInterval ∧
    (s.lyrics ≠ [] →
      (onSeek s t).currentLyricIndex = activeIndex s.lyrics (max 0 (min t a.duration))) := by
  rcases s with ⟨audio, lyr, idx, isp, upd, rel⟩
  simp only [PlayerState.audio] at h
  subst h
  rcases lyr with _ | ⟨c, cs⟩
  · simp [onSeek, updateLyrics, setCurrentTime]
  · simp only [onSeek, updateLyrics, setCurrentTime, List.isEmpty_cons]
    refine ⟨?_, ?_, ?_, fun _ => ?_⟩ <;> split_ifs <;> simp_all

/-- Witness for C8: seeking the playing session to `t = 50`. -/
theorem claim_c8_seek_witness :
    (onSeek playingState 50).isPlaying = playingState.isPlaying ∧
    (onSeek playingState 50).currentLyricIndex =
      activeIndex playingState.lyrics (max 0 (min 50 300)) := by
  have hmain := claim_c8_seek playingState ⟨7, false, 1, 300⟩ 50 rfl
  exact ⟨hmain.2.1, hmain.2.2.2 (by simp [playingState, demoCues])⟩

/-- **C9** Edge-triggered re-render: on an evaluation with audio loaded and a
nonempty cue list, `_renderLyrics` runs exactly when the computed index
differs from the stored one, and a second evaluation of the resulting state
never re-renders. -/
theorem claim_c9_edge_triggered (s : PlayerState) (a : AudioEl)
    (h : s.audio = some a) (hne : s.lyrics ≠ []) :
    ((updateLyrics s).2 = true ↔ activeIndex s.lyrics a.position ≠ s.currentLyricIndex) ∧
    (updateLyrics (updateLyrics s).1).2 = false := by
  rcases s with ⟨audio, lyr, idx, isp, upd, rel⟩
  simp only [PlayerState.audio] at h
  subst h
  simp only [PlayerState.lyrics] at hne
  constructor
  · rw [updateLyrics]
    simp only [List.isEmpty_eq_true]
    rw [if_neg hne]
    split <;> simp_all
  · by_cases hch : activeIndex lyr a.position = idx
    · have h1 : updateLyrics ⟨some a, lyr, idx, isp, upd, rel⟩ =
          (⟨some a, lyr, idx, isp, upd, rel⟩, false) := by
        rw [updateLyrics]
        simp only [List.isEmpty_eq_true]
        rw [if_neg hne]
        simp [hch]
      rw [h1]
      rw [updateLyrics]
      simp only [List.isEmpty_eq_true]
      rw [if_neg hne]
      simp [hch]
    · have h1 : updateLyrics ⟨some a, lyr, idx, isp, upd, rel⟩ =
          (⟨some a, lyr, activeIndex lyr a.position, isp, upd, rel⟩, true) := by
        rw [updateLyrics]
        simp only [List.isEmpty_eq_true]
        rw [if_neg hne]
        simp [hch]
      rw [h1]
      rw [updateLyrics]
      simp only [List.isEmpty_eq_true]
      rw [if_neg hne]
      simp

/-- Witness for C9 at the concrete playing session. -/
theorem claim_c9_edge_triggered_witness :
    (updateLyrics (updateLyrics playingState).1).2 = false :=
  (claim_c9_edge_triggered playingState ⟨7, false, 1, 300⟩ rfl
    (by simp [playingState, demoCues])).2

end LyricDisplay

